import Mathlib

/-!
Verification of the face_anonimizer repository (src/main.py) against its
natural-language specification.

The development shallowly embeds the pure content of `FaceAnonymizer`:
the mosaic-copy loop of `process`, the bounding-box geometry of
`process_img`, the tiling of `sliding_window`, the multi-scale box stream,
the batch ordering of `process_dir`, the progress traces, and the event
order of `process_video_file`.  Machine floats that reach `int(...)`
truncation are modelled by exact rationals; the external `cv2.resize`
mosaic is kept as an abstract frame transform where the claims do not
depend on its pixel arithmetic.
-/

namespace FaceAnonymizer

/-- A pixel frame: dimensions plus the pixel value at integer coordinates
(column `x`, row `y`).  Pixel values are abstract naturals (a packed BGR
triple in the source). -/
structure Img where
  width : ℤ
  height : ℤ
  px : ℤ → ℤ → ℕ

/-- A bounding box `(x1, y1, x2, y2)`, frame-global integer pixel
coordinates, half-open `[x1, x2) x [y1, y2)` as in numpy slicing. -/
structure IBox where
  x1 : ℤ
  y1 : ℤ
  x2 : ℤ
  y2 : ℤ
deriving DecidableEq, Repr

/-- Membership of pixel `(x, y)` in the region that the numpy slice
`img[y1:y2, x1:x2]` addresses. -/
def IBox.holds (b : IBox) (x y : ℤ) : Bool :=
  decide (b.x1 ≤ x) && decide (x < b.x2) && decide (b.y1 ≤ y) && decide (y < b.y2)

/-- One iteration of the loop in `FaceAnonymizer.process`:
`img[y1:y2, x1:x2] = pixelated_img[y1:y2, x1:x2]`, i.e. the box region of
`dst` is overwritten from the fixed source frame `src`. -/
def copy_region (src : Img) (b : IBox) (dst : Img) : Img :=
  { dst with px := fun x y => if b.holds x y then src.px x y else dst.px x y }

/-- The mosaic-copy loop of `FaceAnonymizer.process` over a given box
sequence (the spec's `FrameAnonymizer.anonymize(frame, boxes)` contract):
the whole-frame mosaic `mosaic img` is computed once, before the loop, and
every box region is copied from that same precomputed frame.  The
downscale/upscale pair of `cv2.resize` calls is abstracted as the frame
transform `mosaic`; the claims proved below hold for every such transform. -/
def anonymize (mosaic : Img → Img) (img : Img) (boxes : List IBox) : Img :=
  boxes.foldl (fun acc b => copy_region (mosaic img) b acc) img

theorem foldl_copy_region_px (g : Img) (boxes : List IBox) (a : Img) (x y : ℤ) :
    (boxes.foldl (fun acc b => copy_region g b acc) a).px x y =
      if boxes.any (fun b => b.holds x y) then g.px x y else a.px x y := by
  induction boxes generalizing a with
  | nil => simp
  | cons b bs ih =>
      rw [List.foldl_cons, ih]
      cases hb : b.holds x y <;> cases hbs : bs.any (fun b => b.holds x y) <;>
        simp [copy_region, hb, hbs]

theorem anonymize_px (mosaic : Img → Img) (img : Img) (boxes : List IBox)
    (x y : ℤ) :
    (anonymize mosaic img boxes).px x y =
      if boxes.any (fun b => b.holds x y) then (mosaic img).px x y
      else img.px x y :=
  foldl_copy_region_px (mosaic img) boxes img x y

/-- C1: for every mosaic transform, every frame and every pair of box
sequences with the same members — in particular any permutation of a
sequence, or any duplicate-laden variant of it — `anonymize`
(`FaceAnonymizer.process`) produces a pixel-identical output frame: each
box region is copied from the same precomputed whole-frame mosaic, so
order and multiplicity of the boxes are irrelevant. -/
theorem anonymize_box_order_irrelevant (mosaic : Img → Img) (img : Img)
    (bs bs' : List IBox) (h1 : ∀ b ∈ bs, b ∈ bs') (h2 : ∀ b ∈ bs', b ∈ bs)
    (x y : ℤ) :
    (anonymize mosaic img bs).px x y = (anonymize mosaic img bs').px x y := by
  rw [anonymize_px, anonymize_px]
  have hany : bs.any (fun b => b.holds x y) = bs'.any (fun b => b.holds x y) := by
    cases ha : bs.any (fun b => b.holds x y) <;>
      cases ha' : bs'.any (fun b => b.holds x y)
    · rfl
    · rw [List.any_eq_true] at ha'
      rw [List.any_eq_false] at ha
      obtain ⟨b, hb, hbx⟩ := ha'
      exact absurd hbx (by simp [ha b (h2 b hb)])
    · rw [List.any_eq_true] at ha
      rw [List.any_eq_false] at ha'
      obtain ⟨b, hb, hbx⟩ := ha
      exact absurd hbx (by simp [ha' b (h1 b hb)])
    · rfl
  rw [hany]

/-- Concrete frame used by witnesses. -/
def img0 : Img :=
  { width := 10, height := 10, px := fun x y => x.natAbs + 10 * y.natAbs }

/-- Concrete mosaic transform used by witnesses (any transform works). -/
def mosaic0 : Img → Img :=
  fun f => { f with px := fun x y => f.px x y + 1 }

theorem anonymize_box_order_irrelevant_witness :
    (∀ b ∈ ([⟨1, 1, 3, 3⟩, ⟨2, 2, 5, 5⟩] : List IBox),
        b ∈ ([⟨2, 2, 5, 5⟩, ⟨1, 1, 3, 3⟩, ⟨1, 1, 3, 3⟩] : List IBox)) ∧
    (∀ b ∈ ([⟨2, 2, 5, 5⟩, ⟨1, 1, 3, 3⟩, ⟨1, 1, 3, 3⟩] : List IBox),
        b ∈ ([⟨1, 1, 3, 3⟩, ⟨2, 2, 5, 5⟩] : List IBox)) ∧
    (anonymize mosaic0 img0 [⟨1, 1, 3, 3⟩, ⟨2, 2, 5, 5⟩]).px 2 2 =
      (anonymize mosaic0 img0 [⟨2, 2, 5, 5⟩, ⟨1, 1, 3, 3⟩, ⟨1, 1, 3, 3⟩]).px 2 2 :=
  ⟨by decide, by decide,
    anonymize_box_order_irrelevant mosaic0 img0 _ _ (by decide) (by decide) 2 2⟩

/-- C7: every pixel outside the union of the box regions is byte-identical
in the output of `anonymize` to the corresponding pixel of the input
frame: the loop of `FaceAnonymizer.process` only writes inside
`img[y1:y2, x1:x2]` slices. -/
theorem anonymize_outside_boxes_unchanged (mosaic : Img → Img) (img : Img)
    (boxes : List IBox) (x y : ℤ)
    (h : ∀ b ∈ boxes, b.holds x y = false) :
    (anonymize mosaic img boxes).px x y = img.px x y := by
  rw [anonymize_px]
  have : boxes.any (fun b => b.holds x y) = false :=
    List.any_eq_false.mpr fun b hb => by simp [h b hb]
  rw [this]
  rfl

theorem anonymize_outside_boxes_unchanged_witness :
    (∀ b ∈ ([⟨1, 1, 3, 3⟩, ⟨2, 2, 5, 5⟩] : List IBox), b.holds 7 7 = false) ∧
    (anonymize mosaic0 img0 [⟨1, 1, 3, 3⟩, ⟨2, 2, 5, 5⟩]).px 7 7 = img0.px 7 7 :=
  ⟨by decide,
    anonymize_outside_boxes_unchanged mosaic0 img0 _ 7 7 (by decide)⟩

/-- `windows_x = math.ceil(w / (window_size / 2))` of
`FaceAnonymizer.sliding_window`, in exact arithmetic: the number of tiles
along an axis of length `d` for window size `s` is `ceil(2d / s)`. -/
def windows_count (d s : ℕ) : ℕ := (2 * d + s - 1) / s

/-- `step_x = int(w / windows_x)` of `FaceAnonymizer.sliding_window`: the
stride (which is also the tile extent) along an axis of length `d`. -/
def step_size (d s : ℕ) : ℕ := d / windows_count d s

/-- `x1 = int(i * step_x)`: low edge of tile `i` along an axis. -/
def tile_lo (d s i : ℕ) : ℕ := i * step_size d s

/-- `x2 = int((i + 1) * step_x)`: high edge of tile `i` along an axis. -/
def tile_hi (d s i : ℕ) : ℕ := (i + 1) * step_size d s

/-- Pixel coordinate `p` lies in at least one generated tile interval
along an axis of length `d` for window size `s`. -/
def covered (d s p : ℕ) : Prop :=
  ∃ i, i < windows_count d s ∧ tile_lo d s i ≤ p ∧ p < tile_hi d s i

instance (d s p : ℕ) : Decidable (covered d s p) := by
  unfold covered; infer_instance

theorem covered_iff (d s p : ℕ) :
    covered d s p ↔ p < windows_count d s * step_size d s := by
  constructor
  · rintro ⟨i, hi, _, hhi⟩
    calc p < (i + 1) * step_size d s := hhi
      _ ≤ windows_count d s * step_size d s := Nat.mul_le_mul_right _ hi
  · intro hp
    have hstep : 0 < step_size d s := by
      rcases Nat.eq_zero_or_pos (step_size d s) with h | h
      · rw [h, Nat.mul_zero] at hp; omega
      · exact h
    refine ⟨p / step_size d s, ?_, ?_, ?_⟩
    · exact (Nat.div_lt_iff_lt_mul hstep).mpr hp
    · exact Nat.div_mul_le_self p _
    · calc p = step_size d s * (p / step_size d s) + p % step_size d s :=
            (Nat.div_add_mod p _).symm
        _ < step_size d s * (p / step_size d s) + step_size d s := by
            have := Nat.mod_lt p hstep
            omega
        _ = (p / step_size d s + 1) * step_size d s := by ring

theorem windows_count_mul_step_le (d s : ℕ) :
    windows_count d s * step_size d s ≤ d := by
  rw [step_size, Nat.mul_comm]
  exact Nat.div_mul_le_self d _

theorem tile_hi_le (d s i : ℕ) (hi : i < windows_count d s) :
    tile_hi d s i ≤ d :=
  calc tile_hi d s i = (i + 1) * step_size d s := rfl
    _ ≤ windows_count d s * step_size d s := Nat.mul_le_mul_right _ hi
    _ ≤ d := windows_count_mul_step_le d s

/-- C2 counterexample: for frame dimension `d = 1081` and window size
`s = 400` (both at least 1), pixel coordinate `1080 < d` lies in no
generated tile interval: the six tiles of stride `1081 / 6 = 180` end at
`1080`, leaving the last pixel uncovered. -/
theorem tiling_coverage_counterexample :
    1 ≤ 1081 ∧ 1 ≤ 400 ∧ 1080 < 1081 ∧ ¬ covered 1081 400 1080 := by decide

/-- C2 amended: for `d ≥ 1`, `s ≥ 1` and `n = ceil(2d/s)` tiles of stride
`floor(d/n)`, the generated tile intervals cover the contiguous range
`[0, n * floor(d/n))` with no internal gap, and this range is all of
`[0, d)` exactly when `n` divides `d`; otherwise the last `d mod n` pixel
coordinates are covered by no tile. -/
theorem tiling_coverage_amended (d s : ℕ) (hd : 1 ≤ d) (hs : 1 ≤ s) :
    (∀ p, p < windows_count d s * step_size d s → covered d s p) ∧
    ((∀ p, p < d → covered d s p) ↔ windows_count d s ∣ d) := by
  have hn : 0 < windows_count d s := by
    rw [windows_count]
    apply Nat.div_pos (by omega) (by omega)
  constructor
  · intro p hp
    exact (covered_iff d s p).mpr hp
  · constructor
    · intro h
      have h1 : d ≤ windows_count d s * step_size d s := by
        by_contra hlt
        push_neg at hlt
        have := (covered_iff d s (windows_count d s * step_size d s)).mp
          (h _ hlt)
        omega
      exact ⟨step_size d s, le_antisymm h1 (windows_count_mul_step_le d s)⟩
    · rintro ⟨k, hk⟩ p hp
      apply (covered_iff d s p).mpr
      have hstep : step_size d s = k := by
        rw [step_size]
        nth_rewrite 1 [hk]
        exact Nat.mul_div_cancel_left k hn
      rw [hstep, ← hk]
      exact hp

theorem tiling_coverage_amended_witness :
    (∀ p, p < windows_count 1080 400 * step_size 1080 400 →
        covered 1080 400 p) ∧
    ((∀ p, p < 1080 → covered 1080 400 p) ↔ windows_count 1080 400 ∣ 1080) :=
  tiling_coverage_amended 1080 400 (by decide) (by decide)

/-- C5 counterexample: for window size `s = 400` on a 1920x1080 frame the
tile extent along the 1080 axis is `1080 / ceil(2160/400) = 180`, not
`400`; along the 1920 axis it is `192`, so tiles are not squares; and
successive origins along the 1080 axis are `180` apart, not `s/2 = 200`. -/
theorem tile_shape_counterexample :
    step_size 1080 400 = 180 ∧ step_size 1920 400 = 192 ∧
    tile_hi 1080 400 0 - tile_lo 1080 400 0 ≠ 400 ∧
    tile_lo 1080 400 1 - tile_lo 1080 400 0 ≠ 200 ∧
    step_size 1080 400 ≠ step_size 1920 400 := by decide

/-- C5 amended: along an axis of length `d`, every generated tile has
extent exactly `step_size d s = floor(d / ceil(2d/s))` (roughly `s/2`,
never the window size `s` itself), successive tile origins are exactly one
step apart — tiles abut with no overlap — and no tile overruns the frame
boundary (the row of tiles may instead stop short of it). -/
theorem tile_geometry_amended (d s i : ℕ) (hi : i < windows_count d s) :
    tile_hi d s i - tile_lo d s i = step_size d s ∧
    tile_lo d s (i + 1) = tile_lo d s i + step_size d s ∧
    tile_hi d s i ≤ d := by
  refine ⟨?_, ?_, tile_hi_le d s i hi⟩
  · rw [tile_hi, tile_lo, Nat.succ_mul, Nat.add_sub_cancel_left]
  · rw [tile_lo, tile_lo, Nat.succ_mul]

theorem tile_geometry_amended_witness :
    (tile_hi 1080 400 0 - tile_lo 1080 400 0 = step_size 1080 400 ∧
      tile_lo 1080 400 1 = tile_lo 1080 400 0 + step_size 1080 400 ∧
      tile_hi 1080 400 0 ≤ 1080) :=
  tile_geometry_amended 1080 400 0 (by decide)

/-- An exact, unnormalized fraction `num / den` (all fractions built in
this development have `den > 0`): the exact-arithmetic model of the
Python float values that flow into `int(...)` truncations.  It is kept
unnormalized so that every operation is a plain integer computation. -/
structure Frac where
  num : ℤ
  den : ℤ
deriving DecidableEq, Repr

/-- Exact addition of fractions. -/
def Frac.add (q r : Frac) : Frac :=
  ⟨q.num * r.den + r.num * q.den, q.den * r.den⟩

/-- Exact multiplication of a fraction by an integer. -/
def Frac.mulInt (q : Frac) (z : ℤ) : Frac := ⟨q.num * z, q.den⟩

/-- Python `int(...)` applied to an exact fraction with positive
denominator: truncation toward zero. -/
def Frac.toInt (q : Frac) : ℤ := q.num.tdiv q.den

/-- One raw detection of the oracle: the `relative_bounding_box` fields
`(xmin, ymin, width, height)`, fractional coordinates relative to the
processed (tile or full-frame) image, modelled as exact fractions. -/
structure RawBox where
  xmin : Frac
  ymin : Frac
  rwidth : Frac
  rheight : Frac
deriving DecidableEq, Repr

/-- Lines 66-69 of `FaceAnonymizer.process_img`: convert a raw fractional
box to integer pixel corners on an image with `W` columns and `H` rows,
e.g. `x1 = int(bbox.xmin * w)` and `x2 = int((bbox.xmin + bbox.width) * w)`. -/
def raw_to_pixel (W H : ℤ) (rb : RawBox) : IBox :=
  { x1 := (rb.xmin.mulInt W).toInt
    y1 := (rb.ymin.mulInt H).toInt
    x2 := ((rb.xmin.add rb.rwidth).mulInt W).toInt
    y2 := ((rb.ymin.add rb.rheight).mulInt H).toInt }

/-- Lines 72-75 of `FaceAnonymizer.process_img`: the four sides are grown
in sequence, and the high sides use the already-updated low edges —
`x2 += int(face_expand * (x2 - x1))` runs after `x1` was reassigned. -/
def expand_box (e : Frac) (b : IBox) : IBox :=
  let x1 := b.x1 - (e.mulInt (b.x2 - b.x1)).toInt
  let y1 := b.y1 - (e.mulInt (b.y2 - b.y1)).toInt
  let x2 := b.x2 + (e.mulInt (b.x2 - x1)).toInt
  let y2 := b.y2 + (e.mulInt (b.y2 - y1)).toInt
  { x1 := x1, y1 := y1, x2 := x2, y2 := y2 }

/-- Modelled from the spec's words (§4.1, claim C6): `expand(box, factor)`
grows each of the four sides outward by the truncation of
`factor x width` for both x-sides and `factor x height` for both y-sides,
both dimensions taken from the raw box. -/
def expand_box_spec (e : Frac) (b : IBox) : IBox :=
  { x1 := b.x1 - (e.mulInt (b.x2 - b.x1)).toInt
    y1 := b.y1 - (e.mulInt (b.y2 - b.y1)).toInt
    x2 := b.x2 + (e.mulInt (b.x2 - b.x1)).toInt
    y2 := b.y2 + (e.mulInt (b.y2 - b.y1)).toInt }

/-- Lines 78-79 of `FaceAnonymizer.process_img`: clamp to image bounds. -/
def clamp_box (W H : ℤ) (b : IBox) : IBox :=
  { x1 := max 0 b.x1, y1 := max 0 b.y1, x2 := min W b.x2, y2 := min H b.y2 }

/-- Line 82 of `FaceAnonymizer.process_img`: a box is emitted only when
both of its dimensions reach `face_min_size`. -/
def accept_box (m : ℤ) (b : IBox) : Bool :=
  decide (m ≤ b.x2 - b.x1) && decide (m ≤ b.y2 - b.y1)

/-- The per-detection body of `FaceAnonymizer.process_img` on an image
with `W` columns and `H` rows: convert the raw fractional box to pixel
corners, expand, clamp, and emit the box only if it passes the
minimum-size filter. -/
def process_box (W H : ℤ) (e : Frac) (m : ℤ) (rb : RawBox) : Option IBox :=
  if accept_box m (clamp_box W H (expand_box e (raw_to_pixel W H rb)))
  then some (clamp_box W H (expand_box e (raw_to_pixel W H rb)))
  else none

/-- `FaceAnonymizer.process_img` over a list of oracle detections. -/
def process_img (W H : ℤ) (e : Frac) (m : ℤ) (raws : List RawBox) : List IBox :=
  raws.filterMap (process_box W H e m)

/-- The detection oracle, abstracted: the raw detections it reports on the
sub-image of the frame addressed by a tile rectangle
`(colLo, rowLo, colHi, rowHi)`; the full frame is the rectangle
`(0, 0, W, H)`. -/
def Oracle : Type := ℕ → ℕ → ℕ → ℕ → List RawBox

/-- `FaceAnonymizer.sliding_window` for one window size `s` on a frame
with `W` columns and `H` rows (the source's `w, h, _ = img.shape` binds
`w` to rows and `h` to columns; the tiling applies the same formula to
each axis, and the yield `(y1 + fx1, x1 + fy1, y1 + fx2, x1 + fy2)`
translates tile-local x by the tile's column offset and tile-local y by
its row offset): every tile's detections go through `process_img` with
the tile's dimensions and are then translated by the tile's offset. -/
def sliding_window (W H : ℕ) (e : Frac) (m : ℤ) (oracle : Oracle) (s : ℕ) :
    List IBox :=
  (List.range (windows_count H s)).flatMap fun i =>
    (List.range (windows_count W s)).flatMap fun j =>
      (process_img ((tile_hi W s j : ℤ) - (tile_lo W s j : ℤ))
          ((tile_hi H s i : ℤ) - (tile_lo H s i : ℤ)) e m
          (oracle (tile_lo W s j) (tile_lo H s i)
            (tile_hi W s j) (tile_hi H s i))).map fun b =>
        { x1 := (tile_lo W s j : ℤ) + b.x1
          y1 := (tile_lo H s i : ℤ) + b.y1
          x2 := (tile_lo W s j : ℤ) + b.x2
          y2 := (tile_lo H s i : ℤ) + b.y2 }

/-- The full multi-scale box stream of `FaceAnonymizer.process`:
`chain(self.sliding_windows(img), self.process_img(img))` — every sliding
window pass, window sizes in configured order, followed by one full-frame
pass. -/
def detected_boxes (W H : ℕ) (sizes : List ℕ) (e : Frac) (m : ℤ)
    (oracle : Oracle) : List IBox :=
  (sizes.flatMap (sliding_window W H e m oracle)) ++
    process_img (W : ℤ) (H : ℤ) e m (oracle 0 0 W H)

theorem process_box_invariant (W H : ℤ) (e : Frac) (m : ℤ) (hm : 0 ≤ m)
    (rb : RawBox) (b : IBox) (hb : process_box W H e m rb = some b) :
    0 ≤ b.x1 ∧ b.x1 ≤ b.x2 ∧ b.x2 ≤ W ∧ 0 ≤ b.y1 ∧ b.y1 ≤ b.y2 ∧ b.y2 ≤ H ∧
      m ≤ b.x2 - b.x1 ∧ m ≤ b.y2 - b.y1 := by
  rw [process_box] at hb
  by_cases h :
      accept_box m (clamp_box W H (expand_box e (raw_to_pixel W H rb))) = true
  · rw [if_pos h] at hb
    injection hb with hb
    subst hb
    rw [accept_box, Bool.and_eq_true, decide_eq_true_eq, decide_eq_true_eq]
      at h
    simp only [clamp_box] at h ⊢
    omega
  · rw [if_neg h] at hb
    exact absurd hb (by simp)

theorem sliding_window_invariant (W H : ℕ) (e : Frac) (m : ℤ) (hm : 0 ≤ m)
    (oracle : Oracle) (s : ℕ) (b : IBox)
    (hb : b ∈ sliding_window W H e m oracle s) :
    0 ≤ b.x1 ∧ b.x1 ≤ b.x2 ∧ b.x2 ≤ (W : ℤ) ∧ 0 ≤ b.y1 ∧ b.y1 ≤ b.y2 ∧
      b.y2 ≤ (H : ℤ) ∧ m ≤ b.x2 - b.x1 ∧ m ≤ b.y2 - b.y1 := by
  rw [sliding_window] at hb
  simp only [List.mem_flatMap, List.mem_range, List.mem_map, process_img,
    List.mem_filterMap] at hb
  obtain ⟨i, hi, j, hj, b', ⟨rb, hrb, hpb⟩, rfl⟩ := hb
  have hinv := process_box_invariant _ _ e m hm rb b' hpb
  have hwj : tile_hi W s j ≤ W := tile_hi_le W s j hj
  have hhi : tile_hi H s i ≤ H := tile_hi_le H s i hi
  have hwj' : (tile_hi W s j : ℤ) ≤ (W : ℤ) := Int.ofNat_le.mpr hwj
  have hhi' : (tile_hi H s i : ℤ) ≤ (H : ℤ) := Int.ofNat_le.mpr hhi
  simp only at hinv ⊢
  omega

/-- C3: every box yielded by the multi-scale detection of
`FaceAnonymizer.process` — each sliding-window pass and the final
full-frame pass — satisfies `0 ≤ x1 ≤ x2 ≤ W`, `0 ≤ y1 ≤ y2 ≤ H` and has
both dimensions at least `face_min_size`, for every frame size, every
window-size list, every expansion factor, every detector-oracle output
and every `face_min_size ≥ 0`. -/
theorem detected_boxes_invariant (W H : ℕ) (sizes : List ℕ) (e : Frac) (m : ℤ)
    (hm : 0 ≤ m) (oracle : Oracle) (b : IBox)
    (hb : b ∈ detected_boxes W H sizes e m oracle) :
    0 ≤ b.x1 ∧ b.x1 ≤ b.x2 ∧ b.x2 ≤ (W : ℤ) ∧
      0 ≤ b.y1 ∧ b.y1 ≤ b.y2 ∧ b.y2 ≤ (H : ℤ) ∧
      m ≤ b.x2 - b.x1 ∧ m ≤ b.y2 - b.y1 := by
  rw [detected_boxes] at hb
  rcases List.mem_append.mp hb with h | h
  · rcases List.mem_flatMap.mp h with ⟨s, hs, hmem⟩
    exact sliding_window_invariant W H e m hm oracle s b hmem
  · rcases List.mem_filterMap.mp h with ⟨rb, _, hpb⟩
    exact process_box_invariant (W : ℤ) (H : ℤ) e m hm rb b hpb

/-- Concrete oracle used by witnesses: one detection spanning the whole
processed image, on every tile. -/
def oracle0 : Oracle := fun _ _ _ _ => [⟨⟨0, 1⟩, ⟨0, 1⟩, ⟨1, 1⟩, ⟨1, 1⟩⟩]

/-- Concrete box produced by `detected_boxes` on a 10x10 frame with
window sizes `[4]`, `face_expand = 1/5`, `face_min_size = 5`. -/
def wbox0 : IBox := ⟨0, 0, 10, 10⟩

theorem detected_boxes_invariant_witness :
    (0 : ℤ) ≤ 5 ∧ wbox0 ∈ detected_boxes 10 10 [4] ⟨1, 5⟩ 5 oracle0 ∧
    (0 ≤ wbox0.x1 ∧ wbox0.x1 ≤ wbox0.x2 ∧ wbox0.x2 ≤ ((10 : ℕ) : ℤ) ∧
      0 ≤ wbox0.y1 ∧ wbox0.y1 ≤ wbox0.y2 ∧ wbox0.y2 ≤ ((10 : ℕ) : ℤ) ∧
      (5 : ℤ) ≤ wbox0.x2 - wbox0.x1 ∧ (5 : ℤ) ≤ wbox0.y2 - wbox0.y1) :=
  ⟨by decide, by decide,
    detected_boxes_invariant 10 10 [4] ⟨1, 5⟩ 5 (by decide) oracle0 wbox0
      (by decide)⟩

/-- C6 counterexample: with `face_expand = 1/2` on the raw box
`(30,30)-(50,50)` the code's sequential expansion gives x2 = 50 +
trunc(0.5 * (50 - 20)) = 65, while growth by `factor x width` on every
side (the claim as stated) would give 60. -/
theorem expand_box_counterexample :
    expand_box ⟨1, 2⟩ ⟨30, 30, 50, 50⟩ ≠
      expand_box_spec ⟨1, 2⟩ ⟨30, 30, 50, 50⟩ := by decide

/-- C6 amended: the low sides do grow by the truncation of
`face_expand x` the raw width/height, but each high side grows by the
truncation of `face_expand x` the distance from that high side to the
*already expanded* low side; expansion still happens before clamping, and
on the spec's own example — a 100x100 frame, raw box `(30,30)-(50,50)`,
`face_expand = 0.2`, `face_min_size = 5` — the emitted box is
`(26,26)-(54,54)`. -/
theorem expand_box_amended (e : Frac) (b : IBox) :
    (expand_box e b).x1 = b.x1 - (e.mulInt (b.x2 - b.x1)).toInt ∧
    (expand_box e b).y1 = b.y1 - (e.mulInt (b.y2 - b.y1)).toInt ∧
    (expand_box e b).x2 =
      b.x2 + (e.mulInt (b.x2 - (expand_box e b).x1)).toInt ∧
    (expand_box e b).y2 =
      b.y2 + (e.mulInt (b.y2 - (expand_box e b).y1)).toInt ∧
    process_box 100 100 ⟨1, 5⟩ 5 ⟨⟨3, 10⟩, ⟨3, 10⟩, ⟨1, 5⟩, ⟨1, 5⟩⟩ =
      some ⟨26, 26, 54, 54⟩ :=
  ⟨rfl, rfl, rfl, rfl, by decide⟩

/-- `video_extensions` from the top of main.py. -/
def video_extensions : List String := [".mp4", ".avi", ".mov"]

/-- `image_extensions` from the top of main.py. -/
def image_extensions : List String := [".jpg", ".jpeg", ".png"]

/-- `supported_extensions = video_extensions + image_extensions`. -/
def supported_extensions : List String := video_extensions ++ image_extensions

/-- A filesystem entry as discovered by `path.rglob("*")` in
`process_dir`: its extension and whether it is a regular file; `tag`
keeps distinct discovered entries distinct. -/
structure FoundFile where
  tag : ℕ
  suffix : String
  isFile : Bool
deriving DecidableEq, Repr

/-- The filter of `process_dir` (lines 208-212): keep regular files whose
extension is supported. -/
def eligible (f : FoundFile) : Bool :=
  f.isFile && supported_extensions.contains f.suffix

/-- The sort key of `process_dir` (line 214): `f.suffix in
image_extensions`. -/
def image_key (f : FoundFile) : Bool := image_extensions.contains f.suffix

/-- Insertion step of a stable sort that is descending by a Boolean key:
`a` goes after every element whose key is strictly greater (key `true`
while `a` has key `false`) and before everything else. -/
def insert_desc (key : α → Bool) (a : α) : List α → List α
  | [] => [a]
  | b :: l =>
      if key b && !key a then b :: insert_desc key a l else a :: b :: l

/-- A stable sort, descending by a Boolean key: the model of
`sorted(files_to_process, key=lambda f: f.suffix in image_extensions,
reverse=True)` in `process_dir` (line 213).  CPython's sort is stable and
`reverse=True` still preserves the original relative order of equal-key
elements, so any stable descending sort — this insertion sort included —
produces the same list. -/
def sorted_desc (key : α → Bool) : List α → List α
  | [] => []
  | a :: l => insert_desc key a (sorted_desc key l)

/-- `files_to_process` of `FaceAnonymizer.process_dir`: the discovered
entries filtered to eligible media files, then stably sorted with images
first; the processing loop then consumes this list in order. -/
def files_to_process (discovered : List FoundFile) : List FoundFile :=
  sorted_desc image_key (discovered.filter eligible)

theorem insert_desc_key_true {α : Type} (key : α → Bool) (a : α)
    (h : key a = true) (l : List α) : insert_desc key a l = a :: l := by
  cases l with
  | nil => rfl
  | cons b l => simp [insert_desc, h]

theorem insert_desc_key_false {α : Type} (key : α → Bool) (a : α)
    (h : key a = false) (F G : List α) (hF : ∀ b ∈ F, key b = true)
    (hG : ∀ b ∈ G, key b = false) :
    insert_desc key a (F ++ G) = F ++ a :: G := by
  induction F with
  | nil =>
      cases G with
      | nil => rfl
      | cons g G' => simp [insert_desc, h, hG g (by simp)]
  | cons b F' ih =>
      simp only [List.cons_append, insert_desc, hF b (by simp), h,
        Bool.not_false, Bool.and_true, if_true]
      exact congrArg (b :: ·) (ih fun b hb => hF b (by simp [hb]))

theorem sorted_desc_eq_partition {α : Type} (key : α → Bool) (l : List α) :
    sorted_desc key l = l.filter key ++ l.filter (fun a => !key a) := by
  induction l with
  | nil => rfl
  | cons a l ih =>
      rw [sorted_desc, ih]
      cases ha : key a
      · rw [insert_desc_key_false key a ha _ _
          (fun b hb => (List.mem_filter.mp hb).2)
          (fun b hb => by
            have := (List.mem_filter.mp hb).2
            simpa using this)]
        simp [List.filter_cons, ha]
      · rw [insert_desc_key_true key a ha]
        simp [List.filter_cons, ha]

/-- C9: `process_dir` processes exactly the eligible image files first, in
the relative order in which `rglob` discovered them, followed by the
remaining eligible (video) files, again in discovery order: the stable
images-before-videos sort makes the processing order the order-preserving
partition of the eligible files. -/
theorem files_to_process_images_first (discovered : List FoundFile) :
    files_to_process discovered =
      (discovered.filter eligible).filter image_key ++
        (discovered.filter eligible).filter (fun f => !image_key f) :=
  sorted_desc_eq_partition image_key (discovered.filter eligible)

/-- Local progress events emitted by `process_image_file` (lines
144-147): the function reads, processes and writes the image without ever
invoking `local_progress_callback`, so its local trace is empty. -/
def image_local_trace : List ℚ := []

/-- Local progress events emitted by `process_video_file` for a source
reporting `totalFrames` frames of which `framesRead` are actually
delivered.  Modelled from click's ProgressBar (an external collaborator):
`bar.update(1)` precedes the callback and `bar.pct` is
`min(pos / length, 1)` with a zero length treated as 1, so after the
`i`-th frame (1-based) the emitted value is `min(i / totalFrames, 1)`. -/
def video_local_trace (totalFrames framesRead : ℕ) : List ℚ :=
  (List.range framesRead).map fun i : ℕ =>
    min (((i : ℚ) + 1) / ((max totalFrames 1 : ℕ) : ℚ)) 1

/-- Global progress values emitted by `process_dir` over `n` eligible
files: `bar.pct` is passed to `_process_file` (line 223) and forwarded to
`global_progress_callback` (line 190) before each file's job runs, and
click's iteration bar advances only after the loop body, so the `k`-th
(0-based) emission is `k / n` — the value `1.0` is never emitted. -/
def dir_global_trace (n : ℕ) : List ℚ :=
  (List.range n).map fun k : ℕ => (k : ℚ) / (n : ℚ)

/-- C8 counterexample: in a successful run over an image file no local
progress event is emitted at all — in particular no `1.0` — and over a
directory of two eligible files the emitted global values are `0` and
`1/2`, so the global sequence never reaches `1.0` through the callback
either. -/
theorem progress_reaches_one_counterexample :
    (1 : ℚ) ∉ image_local_trace ∧ (1 : ℚ) ∉ dir_global_trace 2 := by
  constructor
  · simp [image_local_trace]
  · rw [dir_global_trace]
    rintro hmem
    rw [List.mem_map] at hmem
    obtain ⟨k, hk, hkeq⟩ := hmem
    rw [List.mem_range] at hk
    interval_cases k <;> norm_num at hkeq

/-- C8 amended: the emitted local and global progress sequences are
non-decreasing, but they do not reach `1.0` through the callbacks: an
image file emits no local progress at all, and a directory run emits the
global values `k/n` for `k = 0 .. n-1`, all strictly below `1`.  (A video
local trace reaches `1.0` only when the frames actually read reach the
reported total.) -/
theorem progress_traces_amended (t m n : ℕ) :
    image_local_trace = [] ∧
    (video_local_trace t m).Pairwise (· ≤ ·) ∧
    (dir_global_trace n).Pairwise (· ≤ ·) ∧
    (∀ q ∈ dir_global_trace n, q < 1) := by
  refine ⟨rfl, ?_, ?_, ?_⟩
  · rw [video_local_trace, List.pairwise_map]
    refine List.Pairwise.imp ?_ (List.pairwise_lt_range m)
    intro a b hab
    have hT : (0 : ℚ) < ((max t 1 : ℕ) : ℚ) := by
      have : 0 < max t 1 := lt_of_lt_of_le one_pos (le_max_right t 1)
      exact_mod_cast this
    refine min_le_min ?_ le_rfl
    apply (div_le_div_iff_of_pos_right hT).mpr
    have : (a : ℚ) ≤ (b : ℚ) := by exact_mod_cast le_of_lt hab
    linarith
  · rcases Nat.eq_zero_or_pos n with hn | hn
    · subst hn
      simp [dir_global_trace]
    · rw [dir_global_trace, List.pairwise_map]
      refine List.Pairwise.imp ?_ (List.pairwise_lt_range n)
      intro a b hab
      have hN : (0 : ℚ) < (n : ℚ) := by exact_mod_cast hn
      exact (div_le_div_iff_of_pos_right hN).mpr (by exact_mod_cast le_of_lt hab)
  · intro q hq
    rw [dir_global_trace, List.mem_map] at hq
    obtain ⟨k, hk, rfl⟩ := hq
    rw [List.mem_range] at hk
    have hN : (0 : ℚ) < (n : ℚ) := by
      exact_mod_cast lt_of_le_of_lt (Nat.zero_le k) hk
    exact (div_lt_one hN).mpr (by exact_mod_cast hk)

/-- The state of `cv2.VideoCapture(in_path)` as `process_video_file`
observes it: whether the source opened, and the frames that successive
`capture.read()` calls will deliver (empty when the source reports zero
frames). -/
structure Capture where
  opened : Bool
  frames : List ℕ
deriving DecidableEq, Repr

/-- The observable actions of `process_video_file`.  The constructor
`raiseMediaReadError` is in the vocabulary only so that its absence from
every trace is expressible; the source has no such exception. -/
inductive VEvent where
  | createOutput
  | readOk
  | readFail
  | writeFrame
  | releaseCapture
  | releaseOutput
  | raiseMediaReadError
deriving DecidableEq, Repr

/-- The event trace of `FaceAnonymizer.process_video_file` (lines
149-180) on a capture `c`: the `cv2.VideoWriter` for the output path is
constructed immediately — before any read and before any validation —
then, while the capture is open, frames are read and written until the
first failed read; finally both handles are released.  Nothing is ever
raised for an unopened or zero-frame source. -/
def video_events (c : Capture) : List VEvent :=
  VEvent.createOutput ::
    ((if c.opened then
        (c.frames.flatMap fun _ => [VEvent.readOk, VEvent.writeFrame]) ++
          [VEvent.readFail]
      else []) ++
      [VEvent.releaseCapture, VEvent.releaseOutput])

/-- C10 counterexample: on a video source that fails to open — and
likewise on one that opens but reports zero frames — `process_video_file`
raises no MediaReadError, and the very first thing the run does is create
the output file. -/
theorem video_failure_counterexample :
    VEvent.raiseMediaReadError ∉ video_events ⟨false, []⟩ ∧
    VEvent.raiseMediaReadError ∉ video_events ⟨true, []⟩ ∧
    (video_events ⟨false, []⟩).head? = some VEvent.createOutput ∧
    (video_events ⟨true, []⟩).head? = some VEvent.createOutput := by decide

/-- C10 amended: for every capture state, `process_video_file` creates
the output file as its first action — before any read or validation —
never raises a MediaReadError, and on a source delivering no frames
(unopened or zero-frame) it simply writes nothing and completes
normally. -/
theorem video_events_amended (c : Capture) :
    (video_events c).head? = some VEvent.createOutput ∧
    VEvent.raiseMediaReadError ∉ video_events c ∧
    VEvent.writeFrame ∉ video_events { c with frames := [] } := by
  refine ⟨rfl, ?_, ?_⟩
  · cases hop : c.opened <;> simp [video_events, hop]
  · cases hop : c.opened <;> simp [video_events, hop]

end FaceAnonymizer
